import Mathlib

/-!
Shallow embedding of the LeetRace server core (room lifecycle state machine,
scoring, GC policy, and the sandboxed code-execution harness) together with
theorems settling the specification claims.

Conventions of the embedding:
* Python timestamps (`time.time()` floats) are modelled as integers: every
  operation the core performs on a clock value is subtraction or comparison,
  so an integer-valued clock is a faithful discretisation (and, unlike `ℚ`,
  it lets concrete instances be checked by `decide`).  Consequently the
  display rounding `round(submit_time, 2)` in `handle_submit` is the
  identity and is elided.
* Python `dict`s keyed by player name are modelled as association lists in
  insertion order (Python dicts preserve insertion order).
* Effectful handlers become pure functions from the pre-state (plus the data
  the event loop would deliver: current time, sandbox result, chosen problem)
  to the post-state, paired with the messages they would send where a claim
  needs them.
-/

namespace LeetRace

/-- Lifecycle states for a game room (`RoomState` in `rooms.py`). -/
inductive RoomState
  | lobby
  | playing
  | finished
deriving DecidableEq, Repr

/-- A submission record as built by `handle_submit` in `ws.py`
(the dict stored into `player.submission` / `player.best_submission`). -/
structure Submission where
  code : String
  passed : Nat
  total : Nat
  error : Option String
  time_ms : Nat
  char_count : Nat
  solved : Bool
  submit_time : ℤ
deriving DecidableEq, Repr

/-- A player in a room (`Player` in `rooms.py`).  `connected` models whether
the `websocket` field is non-`None`. -/
structure Player where
  name : String
  connected : Bool
  submission : Option Submission
  best_submission : Option Submission
  locked_at : Option ℤ
  resigned : Bool
deriving DecidableEq, Repr

/-- A problem dict as loaded from JSON (`problems.py`); only the fields the
core reads. -/
structure Problem where
  id : String
  title : String
  difficulty : String
  description : String
  entry_point : String
  starter_code : String
  preamble : String
  test_cases : List String
deriving DecidableEq, Repr

/-- A game room (`Room` in `rooms.py`). -/
structure Room where
  id : String
  host : String
  state : RoomState
  players : List (String × Player)
  problem : Option Problem
  start_time : Option ℤ
  time_limit : ℤ
  difficulty : Option String
  total_rounds : Nat
  current_round : Nat
  created_at : ℤ
  finished_at : Option ℤ
deriving DecidableEq, Repr

/-! ## Room registry GC (`rooms.py`) -/

/-- `_MAX_ROOM_AGE_SECONDS` in `rooms.py`: catch-all maximum age. -/
def MAX_ROOM_AGE_SECONDS : ℤ := 7200

/-- The per-room eligibility test performed by one iteration of the loop in
`get_expired_rooms` (`rooms.py`): PLAYING rooms are skipped; FINISHED rooms
expire `max_age_seconds` after `finished_at` (falling back to `created_at`
when `finished_at` is `None`); any other room falls to the 2-hour catch-all
on `created_at`. -/
def roomExpired (now max_age_seconds : ℤ) (room : Room) : Bool :=
  match room.state with
  | RoomState.playing => false
  | RoomState.finished =>
      let end_ts := room.finished_at.getD room.created_at
      decide (now - end_ts ≥ max_age_seconds)
  | RoomState.lobby =>
      decide (now - room.created_at ≥ MAX_ROOM_AGE_SECONDS)

/-- `get_expired_rooms` (`rooms.py`): IDs of registry rooms eligible for GC.
The registry dict is an association list of id → room. -/
def get_expired_rooms (now max_age_seconds : ℤ)
    (rooms : List (String × Room)) : List String :=
  (rooms.filter (fun p => roomExpired now max_age_seconds p.2)).map Prod.fst

/-! ## Scoring (`scoring.py`) -/

/-- One scoreboard entry as built by `rank_players` (`scoring.py`).
`char_count` and `submit_time` are `WithTop` so the `float("inf")` sentinel
of `_NO_SUBMISSION` is representable.  `position` is 0 until assigned. -/
structure RankEntry where
  name : String
  solved : Bool
  char_count : WithTop Nat
  submit_time : WithTop ℤ
  locked_at : Option ℤ
  tests_passed : Nat
  tests_total : Nat
  error : Option String
  code : Option String
  position : Nat
deriving DecidableEq, Repr

/-- The entry built for one `(name, player)` pair in `rank_players`: either
from `best_submission` or from the `_NO_SUBMISSION` sentinel (unsolved,
infinite char count and submit time, zero passed/total, no code key). -/
def buildEntry (include_code : Bool) (name : String) (player : Player) :
    RankEntry :=
  match player.best_submission with
  | none =>
      { name := name, solved := false, char_count := ⊤, submit_time := ⊤,
        locked_at := player.locked_at, tests_passed := 0, tests_total := 0,
        error := none, code := none, position := 0 }
  | some sub =>
      { name := name, solved := sub.solved,
        char_count := (sub.char_count : WithTop Nat),
        submit_time := (sub.submit_time : WithTop ℤ),
        locked_at := player.locked_at, tests_passed := sub.passed,
        tests_total := sub.total, error := sub.error,
        code := if include_code then some sub.code else none, position := 0 }

/-- The composite sort key of `entries.sort(key=...)` in `rank_players`:
`(not solved, -tests_passed, char_count if solved else 0,
locked_at or float("inf"))`, compared lexicographically as in Python. -/
def sortKey (e : RankEntry) : Bool ×ₗ ℤ ×ₗ WithTop Nat ×ₗ WithTop ℤ :=
  toLex (!e.solved,
    toLex (-(e.tests_passed : ℤ),
      toLex (if e.solved then e.char_count else 0,
        match e.locked_at with
        | some t => (t : WithTop ℤ)
        | none => ⊤)))

/-- Key order used by the (stable) Python sort. -/
def rankLE (a b : RankEntry) : Prop := sortKey a ≤ sortKey b

instance : DecidableRel rankLE := fun a b =>
  inferInstanceAs (Decidable (sortKey a ≤ sortKey b))

instance : IsTotal RankEntry rankLE := ⟨fun a b => le_total (sortKey a) (sortKey b)⟩

instance : IsTrans RankEntry rankLE := ⟨fun _ _ _ h h2 => le_trans h h2⟩

/-- `for i, entry in enumerate(entries): entry["position"] = i + 1`. -/
def assignPositions : Nat → List RankEntry → List RankEntry
  | _, [] => []
  | i, e :: rest => { e with position := i + 1 } :: assignPositions (i + 1) rest

/-- The entry list built by `rank_players`' first loop, in player order. -/
def rankEntriesOf (players : List (String × Player)) (include_code : Bool) :
    List RankEntry :=
  players.map fun np => buildEntry include_code np.1 np.2

/-- `rank_players` (`scoring.py`): build entries in player order, sort them
stably by `sortKey` (Python `list.sort` is stable; `insertionSort` is the
stable sort of the embedding), then assign 1-indexed positions. -/
def rank_players (players : List (String × Player)) (include_code : Bool) :
    List RankEntry :=
  assignPositions 0 ((rankEntriesOf players include_code).insertionSort rankLE)

/-- Forget the (post-sort) position of an entry. -/
def erasePos (e : RankEntry) : RankEntry := { e with position := 0 }

/-! ## Sandbox runner comparison semantics (`sandbox.py`, `RUNNER_SCRIPT`)

Values flowing through test-case comparisons are modelled as integers and
(nested) sequences — the domain the `any_order` machinery is about.  Python
values of mixed incomparable types inside one list make `sorted` raise
`TypeError`, which the runner reports as a per-case runtime error; that is
outside the comparison semantics modelled here. -/

/-- A Python value before `_normalize`: ints, lists and tuples. -/
inductive PyVal
  | int (n : ℤ)
  | list (xs : List PyVal)
  | tuple (xs : List PyVal)
deriving Repr

/-- A normalized Python value (`_normalize` output): tuples are gone. -/
inductive PyNorm
  | int (n : ℤ)
  | list (xs : List PyNorm)
deriving Repr

/-- Member-wise induction principle for the nested inductive `PyNorm`. -/
theorem PyNorm.induct {motive : PyNorm → Prop}
    (hint : ∀ n, motive (PyNorm.int n))
    (hlist : ∀ xs, (∀ x ∈ xs, motive x) → motive (PyNorm.list xs)) :
    ∀ x, motive x := by
  have H : ∀ n x, sizeOf x ≤ n → motive x := by
    intro n
    induction n with
    | zero =>
      intro x hx
      exfalso
      cases x <;> simp_all
    | succ n ih =>
      intro x hx
      match x with
      | PyNorm.int m => exact hint m
      | PyNorm.list xs =>
        apply hlist
        intro y hy
        apply ih
        have h1 : sizeOf y < sizeOf xs := List.sizeOf_lt_of_mem hy
        have h2 : sizeOf (PyNorm.list xs) = 1 + sizeOf xs := by simp
        omega
  exact fun x => H (sizeOf x) x le_rfl

/-- Structural (Python `==`) equality test on normalized values. -/
def PyNorm.beq : PyNorm → PyNorm → Bool
  | .int a, .int b => a == b
  | .list [], .list [] => true
  | .list (x :: xs), .list (y :: ys) =>
      PyNorm.beq x y && PyNorm.beq (.list xs) (.list ys)
  | _, _ => false

theorem PyNorm.beq_iff : ∀ a b : PyNorm, PyNorm.beq a b = true ↔ a = b := by
  intro a
  induction a using PyNorm.induct with
  | hint n =>
    intro b
    cases b <;> simp [PyNorm.beq]
  | hlist xs ih =>
    have key : ∀ (xs : List PyNorm),
        (∀ x ∈ xs, ∀ b, PyNorm.beq x b = true ↔ x = b) →
        ∀ ys, PyNorm.beq (PyNorm.list xs) (PyNorm.list ys) = true ↔ xs = ys := by
      intro xs
      induction xs with
      | nil =>
        intro _ ys
        cases ys <;> simp [PyNorm.beq]
      | cons x xs ihx =>
        intro hmem ys
        cases ys with
        | nil => simp [PyNorm.beq]
        | cons y ys =>
          have h1 := hmem x (List.mem_cons_self x xs)
          have h2 := ihx (fun z hz => hmem z (List.mem_cons_of_mem x hz))
          simp [PyNorm.beq, h1, h2 ys]
    intro b
    cases b with
    | int m => simp [PyNorm.beq]
    | list ys => simpa using key xs ih ys

instance : DecidableEq PyNorm := fun a b => decidable_of_iff _ (PyNorm.beq_iff a b)

/-- `_normalize` in `RUNNER_SCRIPT`: recursively turn tuples into lists,
leaving other values alone. -/
def pynormalize : PyVal → PyNorm
  | .int n => .int n
  | .list xs => .list (xs.attach.map fun z => pynormalize z.1)
  | .tuple xs => .list (xs.attach.map fun z => pynormalize z.1)
termination_by x => sizeOf x
decreasing_by
  all_goals
    have := List.sizeOf_lt_of_mem z.2
    simp
    omega

theorem pynormalize_int (n : ℤ) : pynormalize (PyVal.int n) = PyNorm.int n := by
  rw [pynormalize]

theorem pynormalize_list (xs : List PyVal) :
    pynormalize (PyVal.list xs) = PyNorm.list (xs.map pynormalize) := by
  rw [pynormalize]
  rw [List.attach_map_val]

theorem pynormalize_tuple (xs : List PyVal) :
    pynormalize (PyVal.tuple xs) = PyNorm.list (xs.map pynormalize) := by
  rw [pynormalize]
  rw [List.attach_map_val]

/-- Python `str(...)` of a normalized value, as produced inside
`_sort_key`'s `(1, str(_deep_sort(x)))` tuple. -/
def pyRepr : PyNorm → String
  | .int n => toString n
  | .list xs =>
      "[" ++ String.intercalate ", " (xs.attach.map fun z => pyRepr z.1) ++ "]"
termination_by x => sizeOf x
decreasing_by
  all_goals
    have := List.sizeOf_lt_of_mem z.2
    simp
    omega

/-- The key tuples returned by `_sort_key`: `(0, x)` for a non-list value,
`(1, str(...))` for a list. -/
inductive SKey
  | intKey (n : ℤ)
  | strKey (s : String)
deriving DecidableEq

/-- Python tuple comparison on `_sort_key` results: tag 0 sorts before
tag 1; equal tags compare the payload. -/
def skeyLE : SKey → SKey → Bool
  | .intKey a, .intKey b => decide (a ≤ b)
  | .intKey _, .strKey _ => true
  | .strKey _, .intKey _ => false
  | .strKey a, .strKey b => decide (a ≤ b)

/-- `_sort_key` in `RUNNER_SCRIPT`.  The source computes
`(1, str(_deep_sort(x)))` for a list `x`; every call site (inside
`_deep_sort`) applies it to elements that are already deep-sorted, and
`_deep_sort` is idempotent (`deepSort_idem` below), so the inner
`_deep_sort` is the identity there and the repr is taken directly. -/
def sortKeyN (x : PyNorm) : SKey :=
  match x with
  | .list _ => .strKey (pyRepr x)
  | .int n => .intKey n

/-- The element order induced by `_sort_key` under Python's stable sort. -/
def dsRel (a b : PyNorm) : Prop := skeyLE (sortKeyN a) (sortKeyN b) = true

instance : DecidableRel dsRel := fun _ _ => inferInstanceAs (Decidable (_ = true))

/-- `_deep_sort` in `RUNNER_SCRIPT`: recursively sort list values by
`_sort_key` (Python `sorted` is stable; `insertionSort` is the stable sort
of the embedding). -/
def deepSort : PyNorm → PyNorm
  | .int n => .int n
  | .list xs => .list ((xs.attach.map fun z => deepSort z.1).insertionSort dsRel)
termination_by x => sizeOf x
decreasing_by
  all_goals
    have := List.sizeOf_lt_of_mem z.2
    simp
    omega

theorem deepSort_int (n : ℤ) : deepSort (PyNorm.int n) = PyNorm.int n := by
  rw [deepSort]

theorem deepSort_list (xs : List PyNorm) :
    deepSort (PyNorm.list xs) =
      PyNorm.list ((xs.map deepSort).insertionSort dsRel) := by
  rw [deepSort]
  rw [List.attach_map_val]

/-- `flex_eq` in `RUNNER_SCRIPT`: normalize both sides; equal values pass;
otherwise two lists pass iff their deep sorts agree. -/
def flex_eq (a b : PyVal) : Bool :=
  let a2 := pynormalize a
  let b2 := pynormalize b
  if a2 = b2 then true
  else
    match a2, b2 with
    | PyNorm.list _, PyNorm.list _ => decide (deepSort a2 = deepSort b2)
    | _, _ => false

/-- `normalize_eq` in `RUNNER_SCRIPT`: order-sensitive equality after
normalization. -/
def normalize_eq (a b : PyVal) : Bool :=
  decide (pynormalize a = pynormalize b)

/-- The comparison an `assert candidate(...) == expected` test case performs
after the `use_flex_eq` / `use_normalize_eq` rewrite chosen by `any_order`
(`transform = use_flex_eq if any_order else use_normalize_eq`). -/
def assertionPasses (any_order : Bool) (actual expected : PyVal) : Bool :=
  if any_order then flex_eq actual expected else normalize_eq actual expected

/-! ## Sandbox runner test loop (`RUNNER_SCRIPT`, aggregation over cases) -/

/-- The retained detail of the first failing case (`first_failure` dict). -/
structure FailDetail where
  input : String
  expected : Option String
  actual : Option String
deriving DecidableEq, Repr

/-- Outcome of executing one test-case assertion in the runner loop: it
passes, raises `AssertionError`, or raises some other exception.  The
message and detail a failure would produce are carried as data (they are
built from the exception text and `_parse_raw_tc`). -/
inductive TCOutcome
  | ok
  | assertFail (msg : String) (detail : FailDetail)
  | err (msg : String) (detail : FailDetail)
deriving DecidableEq, Repr

/-- Whether a case completed without raising. -/
def tcOk : TCOutcome → Bool
  | TCOutcome.ok => true
  | _ => false

/-- The error message a failing case contributes. -/
def tcMsg : TCOutcome → Option String
  | TCOutcome.ok => none
  | TCOutcome.assertFail m _ => some m
  | TCOutcome.err m _ => some m

/-- The failure detail a failing case contributes. -/
def tcDetail : TCOutcome → Option FailDetail
  | TCOutcome.ok => none
  | TCOutcome.assertFail _ d => some d
  | TCOutcome.err _ d => some d

/-- Mutable loop state of the runner's `for ... in zip(...)` loop. -/
structure LoopState where
  passed : Nat
  first_error : Option String
  first_failure : Option FailDetail
deriving DecidableEq, Repr

/-- One iteration of the runner loop: a pass increments `passed`; a failure
fills `first_error` / `first_failure` only if still unset. -/
def stepCase (st : LoopState) (tc : TCOutcome) : LoopState :=
  match tc with
  | TCOutcome.ok => { st with passed := st.passed + 1 }
  | TCOutcome.assertFail m d =>
      { passed := st.passed,
        first_error := st.first_error.or (some m),
        first_failure := st.first_failure.or (some d) }
  | TCOutcome.err m d =>
      { passed := st.passed,
        first_error := st.first_error.or (some m),
        first_failure := st.first_failure.or (some d) }

/-- The aggregation the runner performs once user code has executed and the
entry point resolved: run every case, count passes, keep the first failure's
message and detail; `total = len(test_cases)`. -/
def runTests (cases : List TCOutcome) : Nat × Nat × Option String × Option FailDetail :=
  let st := cases.foldl stepCase ⟨0, none, none⟩
  (st.passed, cases.length, st.first_error, st.first_failure)

/-! ## Parent-side sandbox invocation (`_run_sync` / `run_code`) -/

/-- Python `str.strip()`: drop leading and trailing whitespace.  (Defined
over the character list so concrete instances reduce in the kernel.) -/
def pyStrip (s : String) : String :=
  ⟨((s.data.dropWhile Char.isWhitespace).reverse.dropWhile Char.isWhitespace).reverse⟩

/-- Python `s[:n]`: the first `n` characters. -/
def pyTake (s : String) (n : Nat) : String := ⟨s.data.take n⟩

/-- A parsed result as read back from the child over stdout, i.e. the dict
the runner `print(json.dumps(...))`s (`time_ms` is added by the parent). -/
structure RunnerOutput where
  passed : Nat
  total : Nat
  error : Option String
  first_failure : Option FailDetail
  stdout : String
  stderr : String
deriving DecidableEq, Repr

/-- The result object `_run_sync` returns to its caller.  `stdout`/`stderr`
are `Option` because the parent-side error dicts omit those keys. -/
structure RunResult where
  passed : Nat
  total : Nat
  error : Option String
  first_failure : Option FailDetail
  time_ms : Nat
  stdout : Option String
  stderr : Option String
deriving DecidableEq, Repr

/-- What the `subprocess.run` call did, abstracting the OS: the child ran to
completion with an exit code and captured streams, the wall-clock timeout
expired (`subprocess.TimeoutExpired`), or invocation itself raised. -/
inductive ProcOutcome
  | completed (returncode : ℤ) (stdout : String) (stderr : String)
  | timedOut
  | raised (msg : String)
deriving Repr

/-- `_SUBPROCESS_TIMEOUT_SECONDS` in `sandbox.py`. -/
def SUBPROCESS_TIMEOUT_SECONDS : Nat := 10

/-- `_run_sync` (`sandbox.py`), as a function of the subprocess outcome.
`decode` abstracts `json.loads` on the child stdout after `.strip()`
(`Except.error` is a `json.JSONDecodeError` with its message).
`elapsed_ms` abstracts the measured elapsed wall-clock time.  Every branch
of the source — including all `except` branches — returns a result dict,
which is why this is a total function into `RunResult`. -/
def run_sync (decode : String → Except String RunnerOutput)
    (test_cases : List String) (outcome : ProcOutcome) (elapsed_ms : Nat) :
    RunResult :=
  match outcome with
  | ProcOutcome.completed rc out err =>
      if rc ≠ 0 ∧ pyStrip out = "" then
        let stderrShort := pyTake (pyStrip err) 200
        { passed := 0, total := test_cases.length,
          error := some (if stderrShort = "" then "Process crashed" else stderrShort),
          first_failure := none, time_ms := elapsed_ms,
          stdout := none, stderr := none }
      else
        match decode (pyStrip out) with
        | Except.ok r =>
            { passed := r.passed, total := r.total, error := r.error,
              first_failure := r.first_failure, time_ms := elapsed_ms,
              stdout := some r.stdout, stderr := some r.stderr }
        | Except.error e =>
            { passed := 0, total := test_cases.length,
              error := some ("Runner produced invalid output: " ++ e),
              first_failure := none, time_ms := elapsed_ms,
              stdout := none, stderr := none }
  | ProcOutcome.timedOut =>
      { passed := 0, total := test_cases.length,
        error := some ("Time limit exceeded (" ++ toString SUBPROCESS_TIMEOUT_SECONDS ++ "s)"),
        first_failure := none, time_ms := elapsed_ms,
        stdout := none, stderr := none }
  | ProcOutcome.raised msg =>
      { passed := 0, total := test_cases.length,
        error := some (pyTake msg 200),
        first_failure := none, time_ms := elapsed_ms,
        stdout := none, stderr := none }

/-- `run_code` (`sandbox.py`): acquire the concurrency semaphore, then run
`_run_sync` on a worker thread and return its result unchanged.  The
semaphore affects scheduling only, so the returned value is `_run_sync`'s. -/
def run_code (decode : String → Except String RunnerOutput)
    (test_cases : List String) (outcome : ProcOutcome) (elapsed_ms : Nat) :
    RunResult :=
  run_sync decode test_cases outcome elapsed_ms

/-! ## WebSocket handlers (`ws.py`)

Handlers become pure state transformers.  A handler that, in the source,
only sends an error to the offending session leaves the room value
untouched; where a claim talks about the messages sent, the handler also
returns them. -/

/-- `BREAK_DURATION_SECONDS` in `ws.py`. -/
def BREAK_DURATION_SECONDS : Nat := 30

/-- Messages broadcast to a room (the subset of `ws.py` message dicts the
claims mention). -/
inductive Msg
  | room_state (room_id : String) (state : RoomState) (host : String)
      (players : List String) (current_round total_rounds : Nat)
  | scoreboard (rankings : List RankEntry)
  | round_over (rankings : List RankEntry) (current_round total_rounds break_seconds : Nat)
  | game_over (rankings : List RankEntry)
  | game_start (problem_id : String) (current_round total_rounds : Nat)
  | error (message : String)
deriving Repr

/-- `_reset_players` (`ws.py`): clear all player submission state. -/
def reset_players (ps : List (String × Player)) : List (String × Player) :=
  ps.map fun np =>
    (np.1, { np.2 with submission := none, best_submission := none, locked_at := none })

/-- Update the (unique) entry of `name` in a player map. -/
def updatePlayer (ps : List (String × Player)) (name : String)
    (f : Player → Player) : List (String × Player) :=
  ps.map fun np => if np.1 = name then (np.1, f np.2) else np

/-- `end_game` (`ws.py`): returns the updated room, the broadcasts it emits,
and whether it schedules a `break_task`.  A room already `FINISHED` is an
immediate no-op. -/
def end_game (room : Room) (now : ℤ) : Room × List Msg × Bool :=
  if room.state = RoomState.finished then (room, [], false)
  else
    let rankings := rank_players room.players true
    if room.current_round < room.total_rounds then
      ({ room with state := RoomState.finished },
       [Msg.round_over rankings room.current_round room.total_rounds BREAK_DURATION_SECONDS],
       true)
    else
      ({ room with state := RoomState.finished, finished_at := some now },
       [Msg.game_over rankings],
       false)

/-- `_begin_round` (`ws.py`): reset players, assign the problem, enter
`PLAYING`, stamp the round start, set the round number, and refresh
`created_at` so the GC catch-all does not reap multi-round games. -/
def begin_round (room : Room) (problem : Problem) (round_number : Nat)
    (now : ℤ) : Room :=
  { room with
      players := reset_players room.players,
      problem := some problem,
      state := RoomState.playing,
      start_time := some now,
      current_round := round_number,
      created_at := now }

/-- `handle_join` (`ws.py`): validate the stripped name, register the
player, or return the error sent to the joining session (room unchanged).
(`name = data.get("name", "").strip()` is inlined as `pyStrip rawName`.) -/
def handle_join (room : Room) (rawName : String) : Room × Option String :=
  if pyStrip rawName = "" then (room, some "Name is required")
  else if 20 < (pyStrip rawName).length then
    (room, some "Name too long (max 20 chars)")
  else if (room.players.lookup (pyStrip rawName)).isSome then
    (room, some "Name is already taken")  -- source interpolates the name
  else if room.state ≠ RoomState.lobby then (room, some "Game already in progress")
  else
    ({ room with
        players := room.players ++
          [(pyStrip rawName,
            { name := pyStrip rawName, connected := true, submission := none,
              best_submission := none, locked_at := none, resigned := false })] },
     none)

/-- `handle_start` (`ws.py`): host-only, lobby-only, needs a player; the
problem `pick_random` would return is passed in (`none` = no problem
available, a non-fatal broadcast error leaving the room in Lobby). -/
def handle_start (room : Room) (player_name : String)
    (picked : Option Problem) (now : ℤ) : Room :=
  if player_name ≠ room.host then room
  else if room.state ≠ RoomState.lobby then room
  else if room.players.length < 1 then room
  else
    match picked with
    | none => room
    | some p => begin_round room p 1 now

/-- `start_next_round` (`ws.py`), reached when the break countdown ends. -/
def start_next_round (room : Room) (picked : Option Problem) (now : ℤ) : Room :=
  match picked with
  | none => room
  | some p => begin_round room p (room.current_round + 1) now

/-- `_is_better` (`ws.py`): the best-submission comparator — solved beats
unsolved; two solved compare by character count; two unsolved by tests
passed. -/
def is_better (su old : Submission) : Bool :=
  if su.solved && !old.solved then true
  else if !su.solved && old.solved then false
  else if su.solved && old.solved then decide (su.char_count < old.char_count)
  else decide (old.passed < su.passed)

/-- The submission dict `handle_submit` builds from the sandbox result
(`solved = passed == total and total > 0`; the display rounding of
`submit_time` is the identity on the integer clock). -/
def mkSubmission (code : String) (now start : ℤ) (result : RunResult) :
    Submission :=
  { code := code,
    passed := result.passed,
    total := result.total,
    error := result.error,
    time_ms := result.time_ms,
    char_count := code.length,
    solved := decide (result.passed = result.total ∧ 0 < result.total),
    submit_time := now - start }

/-- The per-player effect of a successful submission: always store the new
submission; replace `best_submission` only if absent or `_is_better`. -/
def applySubmit (p : Player) (s : Submission) : Player :=
  let p1 := { p with submission := some s }
  match p.best_submission with
  | none => { p1 with best_submission := some s }
  | some best => if is_better s best then { p1 with best_submission := some s } else p1

/-- `handle_submit` (`ws.py`) after the sandbox call returns `result`:
guards (Playing only, registered, not locked, non-blank code), then the
player's submission state is updated by `applySubmit`.  Rejections leave the
room unchanged (the error goes only to the submitter's session). -/
def handle_submit (room : Room) (player_name : String) (code : String)
    (result : RunResult) (now : ℤ) : Room :=
  if room.state ≠ RoomState.playing then room
  else
    match room.players.lookup player_name with
    | none => room
    | some p =>
      if p.locked_at ≠ none then room
      else if pyStrip code = "" then room
      else
        { room with
            players := updatePlayer room.players player_name fun _ =>
              applySubmit p (mkSubmission code now (room.start_time.getD 0) result) }

/-- Record the lock-in offset (`player.locked_at = time.time() - room.start_time`). -/
def lockApply (room : Room) (player_name : String) (now : ℤ) : Room :=
  { room with
      players := updatePlayer room.players player_name fun q =>
        { q with locked_at := some (now - room.start_time.getD 0) } }

/-- After a lock: if every registered player is locked in, end the round
early via `end_game`; otherwise just keep the updated room. -/
def lockFinish (r1 : Room) (now : ℤ) : Room :=
  if r1.players.all fun np => np.2.locked_at ≠ none then (end_game r1 now).1
  else r1

/-- `handle_lock` (`ws.py`): Playing only, registered, not yet locked, best
submission solved; then record the lock-in offset and, if every player is
now locked, end the round early. -/
def handle_lock (room : Room) (player_name : String) (now : ℤ) : Room :=
  if room.state ≠ RoomState.playing then room
  else
    match room.players.lookup player_name with
    | none => room
    | some p =>
      if p.locked_at ≠ none then room
      else if !(match p.best_submission with
                | some b => b.solved
                | none => false) then room
      else lockFinish (lockApply room player_name now) now

/-- `handle_restart` (`ws.py`): host-only and `FINISHED`-only; on success
reset to a fresh Lobby; on rejection return the error sent to the
requesting session, room unchanged. -/
def handle_restart (room : Room) (player_name : String) : Room × Option String :=
  if player_name ≠ room.host then
    (room, some "Only the host can restart the game")
  else if room.state ≠ RoomState.finished then
    (room, some "Game is not finished yet")
  else
    ({ room with
        state := RoomState.lobby,
        problem := none,
        start_time := none,
        current_round := 0,
        players := reset_players room.players },
     none)

/-- The `finally:` cleanup of `websocket_handler` (`ws.py`): remove the
departing player; promote the first remaining player to host if the host
left; an empty room is removed from the registry (registry not modelled
here — the room value keeps its empty player list). -/
def disconnect (room : Room) (player_name : String) : Room :=
  if (room.players.lookup player_name).isSome then
    let ps := room.players.filter fun np => ¬(np.1 = player_name)
    let h :=
      if room.host = player_name ∧ ps ≠ [] then ((ps.head?.map Prod.fst).getD room.host)
      else room.host
    { room with players := ps, host := h }
  else room

/-! ## The room lifecycle as a transition system

One constructor per state-changing branch of a handler or room task; a
branch that leaves the room unchanged (a rejected request) needs no
transition.  The guards of each constructor are the source's guards for
reaching that branch.  `breakEnd` carries the conditions under which
`break_task` reaches `start_next_round`: the task only exists because
`end_game` scheduled it with `current_round < total_rounds`, and it returns
early unless the room is still `FINISHED`. -/

/-- Which handler/task produced a transition. -/
inductive Label
  | join
  | start
  | submit
  | lock
  | timeout
  | breakEnd
  | restart
  | disconnectEvt
deriving DecidableEq, Repr

/-- One state-changing step of a room. -/
inductive Step : Label → Room → Room → Prop
  | join (room : Room) (name : String) :
      Step Label.join room (handle_join room name).1
  | start (room : Room) (name : String) (p : Problem) (now : ℤ)
      (hhost : name = room.host)
      (hlobby : room.state = RoomState.lobby)
      (hplayers : room.players ≠ []) :
      Step Label.start room (begin_round room p 1 now)
  | submit (room : Room) (name code : String) (result : RunResult) (now : ℤ) :
      Step Label.submit room (handle_submit room name code result now)
  | lock (room : Room) (name : String) (now : ℤ) :
      Step Label.lock room (handle_lock room name now)
  | timeout (room : Room) (now : ℤ)
      (hplaying : room.state = RoomState.playing) :
      Step Label.timeout room (end_game room now).1
  | breakEnd (room : Room) (p : Problem) (now : ℤ)
      (hfin : room.state = RoomState.finished)
      (hlt : room.current_round < room.total_rounds) :
      Step Label.breakEnd room (begin_round room p (room.current_round + 1) now)
  | restart (room : Room) (name : String) :
      Step Label.restart room (handle_restart room name).1
  | disconnectEvt (room : Room) (name : String) :
      Step Label.disconnectEvt room (disconnect room name)

/-- Some handler/task step. -/
def StepAny (a b : Room) : Prop := ∃ l, Step l a b

/-- Reachability through the handlers. -/
def Reachable (init r : Room) : Prop := Relation.ReflTransGen StepAny init r

/-- A room as `create_room` (`rooms.py`) returns it, with `rounds` already
clamped to `1..10` by the REST layer (`CreateRoomRequest.clamp_rounds`). -/
def InitialRoom (r : Room) : Prop :=
  r.state = RoomState.lobby ∧ r.players = [] ∧ r.problem = none ∧
  r.start_time = none ∧ r.finished_at = none ∧ r.current_round = 0 ∧
  1 ≤ r.total_rounds ∧ r.total_rounds ≤ 10

/-- The round-counter invariant: `current_round = 0` exactly in (pre-start)
Lobby, and `current_round` never exceeds `total_rounds` (which stays ≥ 1). -/
def RoundInv (r : Room) : Prop :=
  (r.current_round = 0 ↔ r.state = RoomState.lobby) ∧
  r.current_round ≤ r.total_rounds ∧ 1 ≤ r.total_rounds

/-! ## Concrete rooms used by counterexamples and witnesses -/

/-- A terminally finished one-round room. -/
def roomFin : Room :=
  { id := "ROOM01", host := "Alice", state := RoomState.finished, players := [],
    problem := none, start_time := none, time_limit := 300, difficulty := none,
    total_rounds := 1, current_round := 1, created_at := 0, finished_at := some 100 }

/-- A room in the transient inter-round break: `FINISHED` with
`current_round < total_rounds` and no `finished_at` (only the terminal
transition stamps it), whose round started 1.5 hours ago. -/
def roomBreakStale : Room :=
  { id := "ROOM02", host := "Alice", state := RoomState.finished, players := [],
    problem := none, start_time := some 0, time_limit := 300, difficulty := none,
    total_rounds := 3, current_round := 1, created_at := 0, finished_at := none }

/-! ## C1 — GC eligibility -/

/-- C1 counterexample: a room in the transient Finished/break state whose
round began 5400 s (1.5 h) ago — younger than the 2-hour catch-all the claim
assigns to such rooms — is nevertheless returned by `get_expired_rooms`,
because the code applies the 1-hour finished-room rule (with
`finished_at = None` falling back to `created_at`) to every `FINISHED` room,
transient or terminal. -/
theorem claim_C1_cex :
    get_expired_rooms 5400 3600 [("ROOM02", roomBreakStale)] = ["ROOM02"] ∧
    roomBreakStale.state = RoomState.finished ∧
    roomBreakStale.current_round < roomBreakStale.total_rounds ∧
    5400 - roomBreakStale.created_at < MAX_ROOM_AGE_SECONDS := by
  decide

/-- C1 (amended): for every registry snapshot and time, `get_expired_rooms`
returns exactly: no Playing room; every `FINISHED` room — terminal or
transient break — whose `finished_at` (falling back to `created_at` when
absent) is at least `max_age_seconds` old; and every Lobby room whose
`created_at` is at least the 2-hour catch-all old. -/
theorem claim_C1 (now max_age_seconds : ℤ) (rooms : List (String × Room))
    (rid : String) :
    rid ∈ get_expired_rooms now max_age_seconds rooms ↔
      ∃ r, (rid, r) ∈ rooms ∧
        ((r.state = RoomState.finished ∧
            max_age_seconds ≤ now - r.finished_at.getD r.created_at) ∨
         (r.state = RoomState.lobby ∧
            MAX_ROOM_AGE_SECONDS ≤ now - r.created_at)) := by
  simp only [get_expired_rooms, List.mem_map, List.mem_filter]
  constructor
  · rintro ⟨⟨rid2, r⟩, ⟨hmem, hexp⟩, rfl⟩
    refine ⟨r, hmem, ?_⟩
    cases hs : r.state with
    | playing => simp [roomExpired, hs] at hexp
    | finished =>
      left
      refine ⟨rfl, ?_⟩
      simpa [roomExpired, hs, ge_iff_le] using hexp
    | lobby =>
      right
      refine ⟨rfl, ?_⟩
      simpa [roomExpired, hs, ge_iff_le] using hexp
  · rintro ⟨r, hmem, hcond⟩
    refine ⟨(rid, r), ⟨hmem, ?_⟩, rfl⟩
    rcases hcond with ⟨hs, hle⟩ | ⟨hs, hle⟩ <;>
      simp [roomExpired, hs, ge_iff_le, hle]

/-! ## C2 — restart handler -/

/-- A break-state room with a player carrying submission state, used to show
restart succeeds mid-break. -/
def roomBreak : Room :=
  { id := "ROOM03", host := "Alice",
    state := RoomState.finished,
    players := [("Alice",
      { name := "Alice", connected := true,
        submission := some
          { code := "def f(x): return x", passed := 2, total := 2, error := none,
            time_ms := 4, char_count := 18, solved := true, submit_time := 9 },
        best_submission := some
          { code := "def f(x): return x", passed := 2, total := 2, error := none,
            time_ms := 4, char_count := 18, solved := true, submit_time := 9 },
        locked_at := some 12, resigned := false })],
    problem := none, start_time := some 0, time_limit := 300, difficulty := none,
    total_rounds := 2, current_round := 1, created_at := 0, finished_at := none }

/-- C2 counterexample: the restart handler succeeds (no error, room back to
Lobby) on a room in the transient inter-round break — `FINISHED` with
`current_round < total_rounds` — because `handle_restart` only checks
`state == FINISHED`, not terminal-ness. -/
theorem claim_C2_cex :
    (handle_restart roomBreak "Alice").2 = none ∧
    (handle_restart roomBreak "Alice").1.state = RoomState.lobby ∧
    roomBreak.state = RoomState.finished ∧
    roomBreak.current_round < roomBreak.total_rounds := by
  decide

/-- C2 (amended): the restart handler succeeds exactly when the requester is
the host and the room is `FINISHED` — terminal **or** the transient
inter-round break; on success the room returns to Lobby with problem, start
time and round counter cleared and every player's submission state reset; on
rejection an error goes to the requesting session only and the room is
unchanged. -/
theorem claim_C2 (room : Room) (name : String) :
    (name = room.host ∧ room.state = RoomState.finished →
      handle_restart room name =
        ({ room with
            state := RoomState.lobby, problem := none, start_time := none,
            current_round := 0, players := reset_players room.players }, none) ∧
      ∀ np ∈ reset_players room.players,
        np.2.submission = none ∧ np.2.best_submission = none ∧
        np.2.locked_at = none) ∧
    (¬(name = room.host ∧ room.state = RoomState.finished) →
      (handle_restart room name).1 = room ∧
      ((handle_restart room name).2.isSome = true)) := by
  constructor
  · rintro ⟨hhost, hfin⟩
    constructor
    · simp [handle_restart, hhost, hfin]
    · intro np hnp
      rcases List.mem_map.mp hnp with ⟨np0, _, rfl⟩
      exact ⟨rfl, rfl, rfl⟩
  · intro hrej
    by_cases hhost : name = room.host
    · have hfin : room.state ≠ RoomState.finished := by
        intro hf
        exact hrej ⟨hhost, hf⟩
      simp [handle_restart, hhost, hfin]
    · simp [handle_restart, hhost]

/-- C2 witness: the amended success case evaluated on the concrete break
room. -/
theorem claim_C2_witness :
    handle_restart roomBreak "Alice" =
      ({ roomBreak with
          state := RoomState.lobby, problem := none, start_time := none,
          current_round := 0, players := reset_players roomBreak.players }, none) :=
  ((claim_C2 roomBreak "Alice").1 ⟨rfl, rfl⟩).1

/-! ## C10 — `end_game` idempotence on finished rooms -/

/-- C10: `end_game` on a room already `FINISHED` — terminally or in the
inter-round break — returns the room unchanged, broadcasts nothing and
schedules no break task, so a late round timer cannot re-emit results,
re-stamp `finished_at`, or disturb a break. -/
theorem claim_C10 (room : Room) (now : ℤ)
    (h : room.state = RoomState.finished) :
    end_game room now = (room, [], false) := by
  simp [end_game, h]

/-- C10 witness: evaluated on a concrete finished room. -/
theorem claim_C10_witness : end_game roomFin 5000 = (roomFin, [], false) :=
  claim_C10 roomFin 5000 rfl

/-! ## C7 — sandbox invocation always returns a result object -/

/-- C7: `run_code`/`_run_sync` return a result for every subprocess outcome
(the Lean embedding is a total function because every branch of the source,
including all `except` handlers, returns a dict): a wall-clock timeout
yields `passed = 0`, a timeout-flavoured error and the elapsed time; a child
exiting non-zero with blank stdout yields a generic execution-error result
with `passed = 0`; malformed transport output (a `json.loads` failure)
likewise becomes an error result; and in general every invocation returns
either the decoded child result (stamped with the elapsed time) or a
zero-passed error result — never an exception. -/
theorem claim_C7 (decode : String → Except String RunnerOutput)
    (test_cases : List String) (elapsed_ms : Nat) :
    (∀ outcome, run_code decode test_cases outcome elapsed_ms =
      run_sync decode test_cases outcome elapsed_ms) ∧
    (run_sync decode test_cases ProcOutcome.timedOut elapsed_ms =
      { passed := 0, total := test_cases.length,
        error := some "Time limit exceeded (10s)", first_failure := none,
        time_ms := elapsed_ms, stdout := none, stderr := none }) ∧
    (∀ rc out err, rc ≠ 0 → pyStrip out = "" →
      (run_sync decode test_cases (ProcOutcome.completed rc out err) elapsed_ms).passed = 0 ∧
      (run_sync decode test_cases (ProcOutcome.completed rc out err) elapsed_ms).error.isSome = true) ∧
    (∀ rc out err e, ¬(rc ≠ 0 ∧ pyStrip out = "") → decode (pyStrip out) = Except.error e →
      run_sync decode test_cases (ProcOutcome.completed rc out err) elapsed_ms =
        { passed := 0, total := test_cases.length,
          error := some ("Runner produced invalid output: " ++ e),
          first_failure := none, time_ms := elapsed_ms,
          stdout := none, stderr := none }) ∧
    (∀ outcome,
      (run_sync decode test_cases outcome elapsed_ms).time_ms = elapsed_ms ∧
      ((∃ r : RunnerOutput, (run_sync decode test_cases outcome elapsed_ms) =
          { passed := r.passed, total := r.total, error := r.error,
            first_failure := r.first_failure, time_ms := elapsed_ms,
            stdout := some r.stdout, stderr := some r.stderr }) ∨
       ((run_sync decode test_cases outcome elapsed_ms).passed = 0 ∧
        (run_sync decode test_cases outcome elapsed_ms).error.isSome = true))) := by
  refine ⟨fun _ => rfl, rfl, ?_, ?_, ?_⟩
  · intro rc out err hrc hout
    simp [run_sync, hrc, hout]
  · intro rc out err e hnot hdec
    simp [run_sync, hnot, hdec]
  · intro outcome
    cases outcome with
    | completed rc out err =>
      by_cases hc : rc ≠ 0 ∧ pyStrip out = ""
      · constructor
        · simp [run_sync, hc]
        · right
          simp [run_sync, hc]
      · cases hdec : decode (pyStrip out) with
        | ok r =>
          constructor
          · simp [run_sync, hc, hdec]
          · left
            exact ⟨r, by simp [run_sync, hc, hdec]⟩
        | error e =>
          constructor
          · simp [run_sync, hc, hdec]
          · right
            simp [run_sync, hc, hdec]
    | timedOut => exact ⟨rfl, Or.inr ⟨rfl, rfl⟩⟩
    | raised msg => exact ⟨rfl, Or.inr ⟨rfl, rfl⟩⟩

/-- A decoder that always fails, standing in for `json.loads` on garbage. -/
def decodeFail : String → Except String RunnerOutput :=
  fun _ => Except.error "Expecting value"

/-- A one-assertion test-case list. -/
def oneCase : List String := ["assert candidate(1) == 1"]

/-- C7 witness: the crash branch (exit code 1, blank stdout) and the timeout
branch evaluated concretely. -/
theorem claim_C7_witness :
    ((run_sync decodeFail oneCase (ProcOutcome.completed 1 "" "boom") 7).passed = 0 ∧
     (run_sync decodeFail oneCase (ProcOutcome.completed 1 "" "boom") 7).error.isSome = true) ∧
    run_sync decodeFail oneCase ProcOutcome.timedOut 7 =
      { passed := 0, total := 1, error := some "Time limit exceeded (10s)",
        first_failure := none, time_ms := 7, stdout := none, stderr := none } :=
  ⟨(claim_C7 decodeFail oneCase 7).2.2.1 1 "" "boom" (by decide) (by decide),
   (claim_C7 decodeFail oneCase 7).2.1⟩

/-! ## C8 — runner loop aggregation -/

/-- Characterisation of the runner loop fold from an arbitrary state. -/
theorem foldl_stepCase (l : List TCOutcome) (st : LoopState) :
    l.foldl stepCase st =
      { passed := st.passed + l.countP tcOk,
        first_error := st.first_error.or ((l.find? fun t => !tcOk t).bind tcMsg),
        first_failure := st.first_failure.or ((l.find? fun t => !tcOk t).bind tcDetail) } := by
  induction l generalizing st with
  | nil => simp
  | cons t l ih =>
    cases t with
    | ok =>
      simp only [List.foldl_cons, stepCase, ih, List.countP_cons, List.find?]
      simp [tcOk, Nat.add_assoc, Nat.add_comm 1]
    | assertFail m d =>
      simp only [List.foldl_cons, stepCase, ih, List.countP_cons, List.find?]
      simp [tcOk, tcMsg, tcDetail, Option.or_assoc]
    | err m d =>
      simp only [List.foldl_cons, stepCase, ih, List.countP_cons, List.find?]
      simp [tcOk, tcMsg, tcDetail, Option.or_assoc]

/-- C8: once user code executed and the entry point resolved, the runner
attempts every one of the N assertions regardless of earlier failures:
`total = N`, `passed` counts the assertions completing without raising,
`error` is the first failing assertion's message and `first_failure` the
first failing case's detail; later failures are counted but contribute no
detail. -/
theorem claim_C8 (cases : List TCOutcome) :
    (runTests cases).2.1 = cases.length ∧
    (runTests cases).1 = cases.countP tcOk ∧
    (runTests cases).2.2.1 = ((cases.find? fun t => !tcOk t).bind tcMsg) ∧
    (runTests cases).2.2.2 = ((cases.find? fun t => !tcOk t).bind tcDetail) := by
  simp [runTests, foldl_stepCase]

/-! ## C3 — submission storage and the best-submission comparator -/

/-- Looking up the updated player yields the updated value. -/
theorem updatePlayer_cons (np : String × Player) (ps : List (String × Player))
    (name : String) (f : Player → Player) :
    updatePlayer (np :: ps) name f =
      (if np.1 = name then (np.1, f np.2) else np) :: updatePlayer ps name f := rfl

theorem lookup_updatePlayer (ps : List (String × Player)) (name : String)
    (f : Player → Player) :
    (updatePlayer ps name f).lookup name = (ps.lookup name).map f := by
  induction ps with
  | nil => simp [updatePlayer]
  | cons np ps ih =>
    obtain ⟨k, v⟩ := np
    rw [updatePlayer_cons]
    by_cases h : k = name
    · subst h
      rw [if_pos rfl]
      simp [List.lookup]
    · rw [if_neg h]
      have hne : (name == k) = false := by
        simp [Ne.symm h]
      simp [List.lookup, hne, ih]

/-- The player making the scenario submissions. -/
def scenPlayer : Player :=
  { name := "Ann", connected := true, submission := none,
    best_submission := none, locked_at := none, resigned := false }

/-- A mid-round room with one player. -/
def scenRoom : Room :=
  { id := "ROOM04", host := "Ann", state := RoomState.playing,
    players := [("Ann", scenPlayer)], problem := none, start_time := some 0,
    time_limit := 300, difficulty := none, total_rounds := 1,
    current_round := 1, created_at := 0, finished_at := none }

/-- Sandbox result of an incorrect solution (1 of 3 tests pass). -/
def resBad : RunResult :=
  { passed := 1, total := 3, error := some "Assertion failed",
    first_failure := none, time_ms := 5, stdout := none, stderr := none }

/-- Sandbox result of a correct solution (3 of 3 tests pass). -/
def resGood : RunResult :=
  { passed := 3, total := 3, error := none, first_failure := none,
    time_ms := 5, stdout := none, stderr := none }

/-- The incorrect submission's code. -/
def codeBad : String := "def f(x): return 0"

/-- A long correct solution (39 characters). -/
def codeLong : String := "def f(x):\n    y = x + 1\n    return y+0"

/-- A shorter correct solution (20 characters). -/
def codeShort : String := "def f(x): return x+1"

/-- Room after the scenario's first (incorrect) submission. -/
def scenR1 : Room := handle_submit scenRoom "Ann" codeBad resBad 1

/-- Room after the second (long, correct) submission. -/
def scenR2 : Room := handle_submit scenR1 "Ann" codeLong resGood 2

/-- Room after the third (short, correct) submission. -/
def scenR3 : Room := handle_submit scenR2 "Ann" codeShort resGood 3

/-- C3: a submission handled while Playing for a registered, unlocked player
with non-blank code always becomes the player's `submission`; it becomes
`best_submission` iff there was none yet or it is better under `_is_better`,
whose characterisation — solved beats unsolved, fewer characters among
solved, more tests passed among unsolved — is proved alongside.  The claim's
scenario (incorrect, then a longer correct, then a shorter correct
submission) ends with both `best_submission` and `submission` equal to the
shortest correct one (the most recent). -/
theorem claim_C3 (room : Room) (name code : String) (result : RunResult)
    (now : ℤ) (p : Player)
    (hstate : room.state = RoomState.playing)
    (hp : room.players.lookup name = some p)
    (hlock : p.locked_at = none)
    (hcode : pyStrip code ≠ "") :
    (∃ p2, (handle_submit room name code result now).players.lookup name = some p2 ∧
      p2.submission = some (mkSubmission code now (room.start_time.getD 0) result) ∧
      p2.best_submission =
        (match p.best_submission with
         | none => some (mkSubmission code now (room.start_time.getD 0) result)
         | some b =>
             if is_better (mkSubmission code now (room.start_time.getD 0) result) b
             then some (mkSubmission code now (room.start_time.getD 0) result)
             else some b)) ∧
    (∀ a b : Submission, is_better a b = true ↔
      ((a.solved = true ∧ b.solved = false) ∨
       (a.solved = true ∧ b.solved = true ∧ a.char_count < b.char_count) ∨
       (a.solved = false ∧ b.solved = false ∧ b.passed < a.passed))) ∧
    (scenR3.players.lookup "Ann").map Player.submission =
      some (some (mkSubmission codeShort 3 0 resGood)) ∧
    (scenR3.players.lookup "Ann").map Player.best_submission =
      some (some (mkSubmission codeShort 3 0 resGood)) := by
  refine ⟨?_, ?_, by decide, by decide⟩
  · have hplay : ¬room.state ≠ RoomState.playing := by simp [hstate]
    have hrun : handle_submit room name code result now =
        { room with
            players := updatePlayer room.players name fun _ =>
              applySubmit p (mkSubmission code now (room.start_time.getD 0) result) } := by
      unfold handle_submit
      rw [if_neg hplay, hp]
      show (if p.locked_at ≠ none then room
            else if pyStrip code = "" then room else _) = _
      rw [if_neg (show ¬p.locked_at ≠ none by simp [hlock])]
      exact if_neg hcode
    refine ⟨applySubmit p (mkSubmission code now (room.start_time.getD 0) result),
      ?_, ?_, ?_⟩
    · rw [hrun]
      have hlu := lookup_updatePlayer room.players name
        (fun _ => applySubmit p (mkSubmission code now (room.start_time.getD 0) result))
      rw [hp] at hlu
      exact hlu
    · cases hb : p.best_submission
      · simp [applySubmit, hb]
      · simp only [applySubmit, hb]
        split <;> rfl
    · cases hb : p.best_submission
      · simp [applySubmit, hb]
      · simp only [applySubmit, hb]
        split <;> rfl
  · intro a b
    cases ha : a.solved <;> cases hb : b.solved <;>
      simp [is_better, ha, hb]

/-- C3 witness: the first scenario submission (no previous best) evaluated
concretely via the theorem. -/
theorem claim_C3_witness :
    ∃ p2, scenR1.players.lookup "Ann" = some p2 ∧
      p2.submission = some (mkSubmission codeBad 1 0 resBad) ∧
      p2.best_submission =
        (match scenPlayer.best_submission with
         | none => some (mkSubmission codeBad 1 0 resBad)
         | some b =>
             if is_better (mkSubmission codeBad 1 0 resBad) b
             then some (mkSubmission codeBad 1 0 resBad)
             else some b) :=
  (claim_C3 scenRoom "Ann" codeBad resBad 1 scenPlayer rfl (by decide) rfl
    (by decide)).1

/-! ## C6 — order-insensitive comparison

Supporting development: `dsRel` is a total preorder, `deepSort` is
idempotent, and `deepSort` satisfies the source's own recurrence — where
`_sort_key` recomputes `_deep_sort` on the (already deep-sorted) elements —
exactly (`deepSort_src_eq`), which justifies the direct-repr key used in its
definition. -/

instance : IsTotal PyNorm dsRel := by
  constructor
  intro a b
  unfold dsRel
  cases ka : sortKeyN a <;> cases kb : sortKeyN b <;>
    simp [skeyLE] <;> apply le_total

instance : IsTrans PyNorm dsRel := by
  constructor
  intro a b c hab hbc
  unfold dsRel at *
  cases ka : sortKeyN a <;> cases kb : sortKeyN b <;> cases kc : sortKeyN c <;>
    rw [ka, kb] at hab <;> rw [kb, kc] at hbc <;>
    simp [skeyLE] at * <;> exact le_trans hab hbc

/-- Mapping a function that fixes every member is the identity. -/
theorem map_eq_self_of_mem {α : Type} {f : α → α} :
    ∀ (l : List α), (∀ y ∈ l, f y = y) → l.map f = l := by
  intro l
  induction l with
  | nil => intro _; rfl
  | cons a l ih =>
    intro h
    simp only [List.map_cons, h a (List.mem_cons_self a l),
      ih fun y hy => h y (List.mem_cons_of_mem a hy)]

/-- `_deep_sort` is idempotent. -/
theorem deepSort_idem : ∀ x : PyNorm, deepSort (deepSort x) = deepSort x := by
  intro x
  induction x using PyNorm.induct with
  | hint n => simp [deepSort_int]
  | hlist xs ih =>
    rw [deepSort_list, deepSort_list]
    have hmem : ∀ y ∈ (xs.map deepSort).insertionSort dsRel, deepSort y = y := by
      intro y hy
      rw [List.mem_insertionSort] at hy
      rcases List.mem_map.mp hy with ⟨x0, hx0, rfl⟩
      exact ih x0 hx0
    rw [map_eq_self_of_mem _ hmem]
    congr 1
    exact List.Sorted.insertionSort_eq (List.sorted_insertionSort dsRel _)

/-- `orderedInsert` only consults the relation on the inserted element and
the list members. -/
theorem orderedInsert_congr {α : Type} {r s : α → α → Prop}
    [DecidableRel r] [DecidableRel s] (a : α) :
    ∀ (l : List α), (∀ b ∈ l, (r a b ↔ s a b)) →
      l.orderedInsert r a = l.orderedInsert s a := by
  intro l
  induction l with
  | nil => intro _; rfl
  | cons b l ih =>
    intro h
    simp only [List.orderedInsert]
    rw [ih fun c hc => h c (List.mem_cons_of_mem b hc)]
    exact if_congr (h b (List.mem_cons_self b l)) rfl rfl

/-- `insertionSort` only consults the relation on the list members. -/
theorem insertionSort_congr {α : Type} {r s : α → α → Prop}
    [DecidableRel r] [DecidableRel s] :
    ∀ (l : List α), (∀ a ∈ l, ∀ b ∈ l, (r a b ↔ s a b)) →
      l.insertionSort r = l.insertionSort s := by
  intro l
  induction l with
  | nil => intro _; rfl
  | cons a l ih =>
    intro h
    simp only [List.insertionSort]
    rw [ih fun x hx y hy =>
      h x (List.mem_cons_of_mem a hx) y (List.mem_cons_of_mem a hy)]
    apply orderedInsert_congr
    intro b hb
    rw [List.mem_insertionSort] at hb
    exact h a (List.mem_cons_self a l) b (List.mem_cons_of_mem a hb)

/-- The literal key of the source's `_sort_key`: `(1, str(_deep_sort(x)))`
for a list, `(0, x)` otherwise. -/
def srcKey (x : PyNorm) : SKey :=
  match x with
  | PyNorm.list _ => SKey.strKey (pyRepr (deepSort x))
  | PyNorm.int n => SKey.intKey n

/-- The element order the source's key induces. -/
def srcRel (a b : PyNorm) : Prop := skeyLE (srcKey a) (srcKey b) = true

instance : DecidableRel srcRel := fun _ _ => inferInstanceAs (Decidable (_ = true))

/-- On a deep-sorted value the source key and the direct-repr key agree. -/
theorem srcKey_eq_of_fixed {y : PyNorm} (h : deepSort y = y) :
    srcKey y = sortKeyN y := by
  cases y with
  | int n => rfl
  | list ys =>
    unfold srcKey sortKeyN
    rw [h]

/-- `_deep_sort` satisfies the source's recurrence verbatim: a list is
sorted by the key that recomputes `_deep_sort` on each element. -/
theorem deepSort_src_eq (xs : List PyNorm) :
    deepSort (PyNorm.list xs) =
      PyNorm.list ((xs.map deepSort).insertionSort srcRel) := by
  rw [deepSort_list]
  congr 1
  apply insertionSort_congr
  intro a ha b hb
  rcases List.mem_map.mp ha with ⟨x0, _, rfl⟩
  rcases List.mem_map.mp hb with ⟨y0, _, rfl⟩
  unfold dsRel srcRel
  rw [srcKey_eq_of_fixed (deepSort_idem x0), srcKey_eq_of_fixed (deepSort_idem y0)]

/-- `flex_eq` succeeds exactly when the two sides agree after normalization
and deep sorting. -/
theorem flex_eq_iff (a b : PyVal) :
    flex_eq a b = true ↔ deepSort (pynormalize a) = deepSort (pynormalize b) := by
  unfold flex_eq
  by_cases h : pynormalize a = pynormalize b
  · simp [h]
  · rw [if_neg h]
    cases hna : pynormalize a with
    | int n =>
      cases hnb : pynormalize b with
      | int m =>
        rw [hna, hnb] at h
        simp only [deepSort_int]
        simp [h]
      | list ys =>
        simp [deepSort_int, deepSort_list]
    | list xs =>
      cases hnb : pynormalize b with
      | int m =>
        simp [deepSort_int, deepSort_list]
      | list ys =>
        rw [hna, hnb] at h
        simp

/-- The two sides of the claim's example, as runner values. -/
def exActual : PyVal := PyVal.list [PyVal.int 3, PyVal.int 2, PyVal.int 1]

/-- The expected list `[1, 2, 3]`. -/
def exExpected : PyVal := PyVal.list [PyVal.int 1, PyVal.int 2, PyVal.int 3]

theorem exActual_norm :
    pynormalize exActual = PyNorm.list [PyNorm.int 3, PyNorm.int 2, PyNorm.int 1] := by
  simp [exActual, pynormalize_list, pynormalize_int]

theorem exExpected_norm :
    pynormalize exExpected = PyNorm.list [PyNorm.int 1, PyNorm.int 2, PyNorm.int 3] := by
  simp [exExpected, pynormalize_list, pynormalize_int]

theorem exActual_flex : assertionPasses true exActual exExpected = true := by
  show flex_eq exActual exExpected = true
  unfold flex_eq
  rw [exActual_norm, exExpected_norm]
  rw [if_neg (by simp)]
  simp only [deepSort_list, deepSort_int, List.map]
  simp [List.insertionSort, List.orderedInsert, dsRel, skeyLE, sortKeyN]

theorem exActual_strict : assertionPasses false exActual exExpected = false := by
  show normalize_eq exActual exExpected = false
  unfold normalize_eq
  rw [exActual_norm, exExpected_norm]
  simp

/-- C6: with `any_order` true a `candidate(args) == expected` assertion
passes iff the two values are equal after normalizing tuples to lists and
recursively deep-sorting both sides (so `[1,2,3]` matches a candidate
returning `[3,2,1]`); with `any_order` false only order-sensitive normalized
equality is used, and the same comparison fails. -/
theorem claim_C6 (actual expected : PyVal) :
    (assertionPasses true actual expected = true ↔
      deepSort (pynormalize actual) = deepSort (pynormalize expected)) ∧
    (assertionPasses false actual expected = true ↔
      pynormalize actual = pynormalize expected) ∧
    assertionPasses true exActual exExpected = true ∧
    assertionPasses false exActual exExpected = false := by
  refine ⟨?_, ?_, exActual_flex, exActual_strict⟩
  · show flex_eq actual expected = true ↔ _
    exact flex_eq_iff actual expected
  · show normalize_eq actual expected = true ↔ _
    simp [normalize_eq]

/-! ## C4 — ranking: sort key, sentinel, 1-indexed positions -/

theorem length_assignPositions :
    ∀ (i : Nat) (l : List RankEntry), (assignPositions i l).length = l.length := by
  intro i l
  induction l generalizing i with
  | nil => rfl
  | cons e l ih => simp [assignPositions, ih]

theorem position_assignPositions :
    ∀ (l : List RankEntry) (i j : Nat) (h : j < (assignPositions i l).length),
      ((assignPositions i l).get ⟨j, h⟩).position = i + j + 1 := by
  intro l
  induction l with
  | nil =>
    intro i j h
    simp [assignPositions] at h
  | cons e l ih =>
    intro i j h
    cases j with
    | zero => simp [assignPositions]
    | succ j =>
      have := ih (i + 1) j (by simpa [assignPositions, Nat.succ_lt_succ_iff] using h)
      simp only [assignPositions, List.get_cons_succ, this]
      omega

theorem map_erasePos_assignPositions :
    ∀ (i : Nat) (l : List RankEntry),
      (assignPositions i l).map erasePos = l.map erasePos := by
  intro i l
  induction l generalizing i with
  | nil => rfl
  | cons e l ih => simp [assignPositions, erasePos, ih]

/-- The sort key never reads `position`. -/
theorem sortKey_set_position (e : RankEntry) (k : Nat) :
    sortKey { e with position := k } = sortKey e := rfl

theorem map_sortKey_assignPositions :
    ∀ (i : Nat) (l : List RankEntry),
      (assignPositions i l).map sortKey = l.map sortKey := by
  intro i l
  induction l generalizing i with
  | nil => rfl
  | cons e l ih => simp [assignPositions, sortKey_set_position, ih]

theorem erasePos_buildEntry (ic : Bool) (n : String) (p : Player) :
    erasePos (buildEntry ic n p) = buildEntry ic n p := by
  cases hb : p.best_submission <;> simp [buildEntry, erasePos, hb]

/-- C4: `rank_players` emits one entry per player; positions are the
1-indexed, gap-free ranks in final sort order; forgetting positions, the
output is a permutation of the per-player entries (sentinel-substituted for
players without a best submission); the output is sorted ascending by the
composite key `(not solved, -tests_passed, char count if solved else 0,
lock-in offset or +∞)`; and a player with no best submission contributes
exactly the sentinel entry (unsolved, infinite char count and submit time,
zero passed/total). -/
theorem claim_C4 (players : List (String × Player)) (include_code : Bool) :
    (rank_players players include_code).length = players.length ∧
    (∀ j (h : j < (rank_players players include_code).length),
      ((rank_players players include_code).get ⟨j, h⟩).position = j + 1) ∧
    ((rank_players players include_code).map erasePos).Perm
      (rankEntriesOf players include_code) ∧
    ((rank_players players include_code).map sortKey).Sorted (fun a b => a ≤ b) ∧
    (∀ name p, p.best_submission = none →
      buildEntry include_code name p =
        { name := name, solved := false, char_count := ⊤, submit_time := ⊤,
          locked_at := p.locked_at, tests_passed := 0, tests_total := 0,
          error := none, code := none, position := 0 }) := by
  refine ⟨?_, ?_, ?_, ?_, ?_⟩
  · simp [rank_players, length_assignPositions, rankEntriesOf]
  · intro j h
    have := position_assignPositions
      ((rankEntriesOf players include_code).insertionSort rankLE) 0 j h
    simpa [rank_players] using this
  · rw [rank_players, map_erasePos_assignPositions]
    have hperm :=
      (List.perm_insertionSort rankLE (rankEntriesOf players include_code)).map erasePos
    refine hperm.trans ?_
    have hfix : (rankEntriesOf players include_code).map erasePos =
        rankEntriesOf players include_code := by
      apply map_eq_self_of_mem
      intro e he
      rcases List.mem_map.mp he with ⟨np, _, rfl⟩
      exact erasePos_buildEntry include_code np.1 np.2
    rw [hfix]
  · rw [rank_players, map_sortKey_assignPositions]
    have hs := List.sorted_insertionSort rankLE (rankEntriesOf players include_code)
    exact List.Pairwise.map sortKey (fun a b hab => hab) hs
  · intro name p hb
    simp [buildEntry, hb]

/-- A player snapshot with no submission at all. -/
def playerNoSub : Player :=
  { name := "Bob", connected := true, submission := none,
    best_submission := none, locked_at := none, resigned := false }

/-- C4 witness: the sentinel branch and the position/permutation conclusions
evaluated on a one-player snapshot. -/
theorem claim_C4_witness :
    buildEntry false "Bob" playerNoSub =
      { name := "Bob", solved := false, char_count := ⊤, submit_time := ⊤,
        locked_at := none, tests_passed := 0, tests_total := 0,
        error := none, code := none, position := 0 } ∧
    (rank_players [("Bob", playerNoSub)] false).length = 1 :=
  ⟨(claim_C4 [("Bob", playerNoSub)] false).2.2.2.2 "Bob" playerNoSub rfl,
   (claim_C4 [("Bob", playerNoSub)] false).1⟩

/-! ## C5 — `include_code=False` never leaks code -/

/-- Blank out the stored code text of a submission, leaving every other
field (including `char_count`) as recorded. -/
def scrubSubmission (s : Submission) : Submission := { s with code := "" }

/-- Blank out the code text held in a player's submissions. -/
def scrubPlayer (p : Player) : Player :=
  { p with
      submission := p.submission.map scrubSubmission,
      best_submission := p.best_submission.map scrubSubmission }

/-- Blank out code text across a snapshot; two snapshots with the same scrub
differ only in stored code text. -/
def scrubPlayers (ps : List (String × Player)) : List (String × Player) :=
  ps.map fun np => (np.1, scrubPlayer np.2)

theorem buildEntry_scrub (n : String) (p : Player) :
    buildEntry false n (scrubPlayer p) = buildEntry false n p := by
  cases hb : p.best_submission <;>
    simp [buildEntry, scrubPlayer, scrubSubmission, hb]

/-- C5: with `include_code = False` every emitted entry has `code = None`,
even for solved submissions; consequently the live scoreboard output is
identical for any two snapshots that differ only in stored code text. -/
theorem claim_C5 :
    (∀ players (e : RankEntry), e ∈ rank_players players false → e.code = none) ∧
    (∀ p1 p2 : List (String × Player), scrubPlayers p1 = scrubPlayers p2 →
      rank_players p1 false = rank_players p2 false) := by
  constructor
  · intro players e he
    have h1 : erasePos e ∈ (rank_players players false).map erasePos :=
      List.mem_map_of_mem erasePos he
    rw [rank_players, map_erasePos_assignPositions] at h1
    rcases List.mem_map.mp h1 with ⟨e1, he1, heq⟩
    rw [List.mem_insertionSort] at he1
    rcases List.mem_map.mp he1 with ⟨np, _, rfl⟩
    have hcode : (buildEntry false np.1 np.2).code = none := by
      cases hb : np.2.best_submission <;> simp [buildEntry, hb]
    calc e.code = (erasePos e).code := rfl
      _ = (erasePos (buildEntry false np.1 np.2)).code := by rw [heq]
      _ = (buildEntry false np.1 np.2).code := rfl
      _ = none := hcode
  · have key : ∀ ps : List (String × Player),
        rank_players (scrubPlayers ps) false = rank_players ps false := by
      intro ps
      unfold rank_players
      have hentries : rankEntriesOf (scrubPlayers ps) false = rankEntriesOf ps false := by
        unfold rankEntriesOf scrubPlayers
        rw [List.map_map]
        apply List.map_congr_left
        intro np _
        exact buildEntry_scrub np.1 np.2
      rw [hentries]
    intro p1 p2 h
    rw [← key p1, ← key p2, h]

/-- Two one-player snapshots identical except for the stored code text. -/
def snapshotA : List (String × Player) :=
  [("P", { name := "P", connected := true, submission := none,
           best_submission := some
             { code := "def f(x): return x+1", passed := 1, total := 1,
               error := none, time_ms := 3, char_count := 20, solved := true,
               submit_time := 5 },
           locked_at := none, resigned := false })]

/-- Same as `snapshotA` with different code text for the best submission. -/
def snapshotB : List (String × Player) :=
  [("P", { name := "P", connected := true, submission := none,
           best_submission := some
             { code := "def f(y): return 1+y", passed := 1, total := 1,
               error := none, time_ms := 3, char_count := 20, solved := true,
               submit_time := 5 },
           locked_at := none, resigned := false })]

/-- C5 witness: the two snapshots produce identical live scoreboards, and a
concrete solved entry of that scoreboard carries no code. -/
theorem claim_C5_witness :
    rank_players snapshotA false = rank_players snapshotB false ∧
    ∀ e ∈ rank_players snapshotA false, e.code = none :=
  ⟨claim_C5.2 snapshotA snapshotB (by decide),
   fun e he => claim_C5.1 snapshotA e he⟩

/-! ## C9 — round-counter invariant -/

theorem handle_join_frame (room : Room) (name : String) :
    ∃ ps, (handle_join room name).1 = { room with players := ps } := by
  unfold handle_join
  repeat' split
  all_goals exact ⟨_, rfl⟩

theorem handle_submit_frame (room : Room) (name code : String)
    (result : RunResult) (now : ℤ) :
    ∃ ps, handle_submit room name code result now = { room with players := ps } := by
  unfold handle_submit
  repeat' split
  all_goals exact ⟨_, rfl⟩

theorem end_game_frame (room : Room) (now : ℤ)
    (h : room.state ≠ RoomState.finished) :
    ∃ fa, (end_game room now).1 =
      { room with state := RoomState.finished, finished_at := fa } := by
  unfold end_game
  rw [if_neg h]
  split
  · exact ⟨room.finished_at, rfl⟩
  · exact ⟨some now, rfl⟩

theorem roundInv_lockFinish (r1 : Room) (now : ℤ)
    (h1 : r1.state = RoomState.playing) (hInv : RoundInv r1) :
    RoundInv (lockFinish r1 now) := by
  unfold lockFinish
  split
  · have hne : r1.state ≠ RoomState.finished := by simp [h1]
    rcases end_game_frame r1 now hne with ⟨fa, hfa⟩
    rw [hfa]
    rcases hInv with ⟨hiff, hle, h1t⟩
    refine ⟨⟨fun h0 => ?_, fun hco => ?_⟩, hle, h1t⟩
    · have h2 := hiff.mp h0
      rw [h1] at h2
      exact absurd h2 (by decide)
    · simp at hco
  · exact hInv

theorem roundInv_handle_lock (room : Room) (name : String) (now : ℤ)
    (hInv : RoundInv room) : RoundInv (handle_lock room name now) := by
  unfold handle_lock
  split
  · exact hInv
  next hplay =>
    have hstate : room.state = RoomState.playing := not_ne_iff.mp hplay
    split
    · exact hInv
    next p _ =>
      split
      · exact hInv
      split
      · exact hInv
      · refine roundInv_lockFinish (lockApply room name now) now ?_ ?_
        · exact hstate
        · exact hInv

theorem roundInv_step {l : Label} {r r2 : Room} (hs : Step l r r2)
    (hInv : RoundInv r) : RoundInv r2 := by
  cases hs with
  | join _ name =>
    rcases handle_join_frame r name with ⟨ps, hps⟩
    rw [hps]
    exact hInv
  | start _ name p now hhost hlobby hplayers =>
    rcases hInv with ⟨hiff, hle, h1t⟩
    refine ⟨by simp [begin_round], ?_, h1t⟩
    simpa [begin_round] using h1t
  | submit _ name code result now =>
    rcases handle_submit_frame r name code result now with ⟨ps, hps⟩
    rw [hps]
    exact hInv
  | lock _ name now => exact roundInv_handle_lock r name now hInv
  | timeout _ now hplaying =>
    have hne : r.state ≠ RoomState.finished := by simp [hplaying]
    rcases end_game_frame r now hne with ⟨fa, hfa⟩
    rw [hfa]
    rcases hInv with ⟨hiff, hle, h1t⟩
    refine ⟨⟨fun h0 => ?_, fun hco => ?_⟩, hle, h1t⟩
    · have h2 := hiff.mp h0
      rw [hplaying] at h2
      exact absurd h2 (by decide)
    · simp at hco
  | breakEnd _ p now hfin hlt =>
    rcases hInv with ⟨hiff, hle, h1t⟩
    refine ⟨by simp [begin_round], ?_, h1t⟩
    simpa [begin_round] using hlt
  | restart _ name =>
    unfold handle_restart
    split
    · exact hInv
    split
    · exact hInv
    · rcases hInv with ⟨hiff, hle, h1t⟩
      exact ⟨by simp, Nat.zero_le _, h1t⟩
  | disconnectEvt _ name =>
    unfold disconnect
    split
    · exact hInv
    · exact hInv

theorem roundInv_reachable (init r : Room) (hinit : InitialRoom init)
    (hr : Reachable init r) : RoundInv r := by
  induction hr with
  | refl =>
    rcases hinit with ⟨hlobby, _, _, _, _, h0, h1, _⟩
    exact ⟨by simp [h0, hlobby], by simp [h0], h1⟩
  | tail _ hbc ih =>
    rcases hbc with ⟨l, hs⟩
    exact roundInv_step hs ih

/-- C9: in every room state reachable through the handlers from a freshly
created room, `current_round = 0` exactly in the (pre-start) Lobby state of
the current game cycle, `current_round ≤ total_rounds` whenever the room is
Playing, and every transition that begins a round (`handle_start`'s
successful branch and the break countdown reaching `start_next_round`)
increments `current_round` by exactly one. -/
theorem claim_C9 (init r : Room) (hinit : InitialRoom init)
    (hr : Reachable init r) :
    (r.current_round = 0 ↔ r.state = RoomState.lobby) ∧
    (r.state = RoomState.playing → r.current_round ≤ r.total_rounds) ∧
    (∀ r2, Step Label.start r r2 → r2.current_round = r.current_round + 1) ∧
    (∀ r2, Step Label.breakEnd r r2 → r2.current_round = r.current_round + 1) := by
  have hInv := roundInv_reachable init r hinit hr
  refine ⟨hInv.1, fun _ => hInv.2.1, ?_, ?_⟩
  · intro r2 hs
    cases hs with
    | start _ name p now hhost hlobby hplayers =>
      have h0 : r.current_round = 0 := hInv.1.mpr hlobby
      simp [begin_round, h0]
  · intro r2 hs
    cases hs with
    | breakEnd _ p now hfin hlt => simp [begin_round]

/-- A freshly created two-round room. -/
def wRoom0 : Room :=
  { id := "ROOM05", host := "Ann", state := RoomState.lobby, players := [],
    problem := none, start_time := none, time_limit := 300, difficulty := none,
    total_rounds := 2, current_round := 0, created_at := 0, finished_at := none }

/-- `wRoom0` after Ann joins. -/
def wRoom1 : Room := (handle_join wRoom0 "Ann").1

/-- A problem for the witness run. -/
def wProblem : Problem :=
  { id := "p1", title := "Two Sum", difficulty := "Easy",
    description := "Return the indices, in any order.",
    entry_point := "f", starter_code := "", preamble := "",
    test_cases := ["assert candidate(1) == 1"] }

/-- `wRoom1` after the host starts round 1. -/
def wRoom2 : Room := begin_round wRoom1 wProblem 1 10

/-- C9 witness: the invariant evaluated on the concrete reachable room
`create → join → start`. -/
theorem claim_C9_witness :
    (wRoom2.current_round = 0 ↔ wRoom2.state = RoomState.lobby) ∧
    (wRoom2.state = RoomState.playing → wRoom2.current_round ≤ wRoom2.total_rounds) := by
  have hinit : InitialRoom wRoom0 := by
    refine ⟨rfl, rfl, rfl, rfl, rfl, rfl, ?_, ?_⟩ <;> decide
  have hreach : Reachable wRoom0 wRoom2 :=
    Relation.ReflTransGen.tail
      (Relation.ReflTransGen.tail Relation.ReflTransGen.refl
        ⟨Label.join, Step.join wRoom0 "Ann"⟩)
      ⟨Label.start, Step.start wRoom1 "Ann" wProblem 10 (by decide) (by decide)
        (by decide)⟩
  have h := claim_C9 wRoom0 wRoom2 hinit hreach
  exact ⟨h.1, h.2.1⟩

end LeetRace
